import Mathlib

set_option maxRecDepth 40000

/-!
# Verification of the persistent-bplus storage engine

A shallow embedding of the `pkg/store` page store (page cache, allocator,
on-disk free list) and the `pkg/bplus` B+-tree (page codecs, descent-based
point lookup) of the repository, with theorems checking the specification's
claims against the embedded code.

Conventions:
* Page buffers are `List Nat` of length `PageSize`, one entry per byte.
* Go's `binary.LittleEndian` helpers become `putU32` / `getU32`.
* Mutating methods become state-passing functions `State → result × State`;
  a Go method that returns an error before mutating returns the unchanged
  state alongside the error.
* Go runtime panics (index out of range, explicit `panic`) are modelled by
  the dedicated error value `StoreErr.panicked`; no state after a panic is
  observable in Go, but the model keeps threading the state mutated so far.
-/

/-! ## Byte-level primitives (`encoding/binary`, little endian) -/

/-- `PageSize` divides files into blocks of 4K (page_store.go). -/
def PageSize : Nat := 4096

/-- `MagicNumber` found in the first four bytes of a page store file. -/
def MagicNumber : Nat := 0x4A414B45

/-- A page buffer: `PageSize` bytes, each `< 256`. -/
abbrev Buf := List Nat

/-- The four little-endian bytes of a 32-bit value (`binary.LittleEndian.PutUint32`). -/
def u32le (v : Nat) : List Nat :=
  [v % 256, v / 256 % 256, v / 65536 % 256, v / 16777216 % 256]

/-- Store the bytes `bs` into `buf` starting at offset `off` (byte-wise stores,
as Go's `copy`/`PutUint32` do; stores past the end of `buf` are dropped, which
never happens under the fits-in-page side conditions used below). -/
def putBytesAt : Buf → Nat → List Nat → Buf
  | buf, _, [] => buf
  | buf, off, b :: bs => putBytesAt (buf.set off b) (off + 1) bs

/-- `binary.LittleEndian.PutUint32(buf[off:], v)`. -/
def putU32 (buf : Buf) (off v : Nat) : Buf :=
  putBytesAt buf off (u32le v)

/-- Read the byte at index `i` (0 when out of range; in-range under fits conditions). -/
def getByte (buf : Buf) (i : Nat) : Nat :=
  buf.getD i 0

/-- `binary.LittleEndian.Uint32(buf[off:])`. -/
def getU32 (buf : Buf) (off : Nat) : Nat :=
  getByte buf off + 256 * getByte buf (off + 1) + 65536 * getByte buf (off + 2) +
    16777216 * getByte buf (off + 3)

/-- Write a sequence of uint32 values at consecutive 4-byte offsets
(the `for _, key := range p.keys { PutUint32...; current += 4 }` loops). -/
def writeU32List : Buf → Nat → List Nat → Buf
  | buf, _, [] => buf
  | buf, cur, v :: vs => writeU32List (putU32 buf cur v) (cur + 4) vs

/-- Read `n` uint32 values at consecutive 4-byte offsets starting at `cur`. -/
def readU32List (buf : Buf) : Nat → Nat → List Nat
  | 0, _ => []
  | n + 1, cur => getU32 buf cur :: readU32List buf n (cur + 4)

/-! ## B+-tree page codec (bplus.go) -/

/-- `Record` represents a key value pair stored in a B+ tree. Keys are Go
`uint32` (modelled as `Nat`, bounded by `2^32` in hypotheses); values are
arbitrary-length byte sequences. -/
structure Record where
  key : Nat
  value : List Nat
deriving DecidableEq

/-- `isLeafPage`: the first byte of a page buffer is the type tag, 1 = leaf. -/
def isLeafPage (buf : Buf) : Bool :=
  getByte buf 0 == 1

/-- `keyToBuffer`: writes a key and reports an advance of 4 bytes. -/
def keyToBuffer (buf : Buf) (off key : Nat) : Buf :=
  putU32 buf off key

/-- `valueToBuffer`: writes the value length then the raw value bytes,
advance `4 + len`. -/
def valueToBuffer (buf : Buf) (off : Nat) (value : List Nat) : Buf :=
  putBytesAt (putU32 buf off value.length) (off + 4) value

/-- The record-writing loop of `leafPage.toBuffer`. -/
def leafRecToBuf : Buf → Nat → List Record → Buf
  | buf, _, [] => buf
  | buf, cur, r :: rs =>
      leafRecToBuf (valueToBuffer (keyToBuffer buf cur r.key) (cur + 4) r.value)
        (cur + 4 + (4 + r.value.length)) rs

/-- `leafPage.toBuffer`: tag byte 1, record count, then the records. -/
def leafToBuffer (records : List Record) (buf : Buf) : Buf :=
  leafRecToBuf (putU32 (buf.set 0 1) 1 records.length) 5 records

/-- `keyFromBuffer`: reads a key, advance 4. -/
def keyFromBuffer (buf : Buf) (off : Nat) : Nat :=
  getU32 buf off

/-- `valueFromBuffer`: reads the length then that many raw bytes; returns the
value and the advance `len + 4`. -/
def valueFromBuffer (buf : Buf) (off : Nat) : List Nat × Nat :=
  ((List.range (getU32 buf off)).map (fun i => getByte buf (off + 4 + i)),
    getU32 buf off + 4)

/-- The record-reading loop of `leafPage.fromBuffer`. -/
def leafRecFromBuf : Nat → Buf → Nat → List Record
  | 0, _, _ => []
  | n + 1, buf, cur =>
      { key := keyFromBuffer buf cur, value := (valueFromBuffer buf (cur + 4)).1 } ::
        leafRecFromBuf n buf (cur + 4 + (valueFromBuffer buf (cur + 4)).2)

/-- `leafPage.fromBuffer`: record count at bytes [1:5], records from byte 5. -/
def leafFromBuffer (buf : Buf) : List Record :=
  leafRecFromBuf (getU32 buf 1) buf 5

/-- `branchPage.toBuffer`: tag byte 0, key count, keys, pointer count, pointers. -/
def branchToBuffer (keys pointers : List Nat) (buf : Buf) : Buf :=
  writeU32List
    (putU32 (writeU32List (putU32 (buf.set 0 0) 1 keys.length) 5 keys)
      (5 + 4 * keys.length) pointers.length)
    (5 + 4 * keys.length + 4) pointers

/-- `branchPage.fromBuffer`: key count at [1:5], keys, pointer count, pointers. -/
def branchFromBuffer (buf : Buf) : List Nat × List Nat :=
  (readU32List buf (getU32 buf 1) 5,
   readU32List buf (getU32 buf (5 + 4 * getU32 buf 1)) (5 + 4 * getU32 buf 1 + 4))

/-! Byte streams produced by the encoders (the encoders write these streams
sequentially from offset 0, leaving the rest of the page untouched). -/

/-- The byte stream of one leaf record: key, value length, value bytes. -/
def recBytes (r : Record) : List Nat :=
  u32le r.key ++ u32le r.value.length ++ r.value

/-- The byte stream of a list of leaf records. -/
def recsBytes : List Record → List Nat
  | [] => []
  | r :: rs => recBytes r ++ recsBytes rs

/-- The full byte stream written by `leafPage.toBuffer`. -/
def leafStream (records : List Record) : List Nat :=
  1 :: u32le records.length ++ recsBytes records

/-- The full byte stream written by `branchPage.toBuffer`. -/
def branchStream (keys pointers : List Nat) : List Nat :=
  0 :: u32le keys.length ++ (keys.map u32le).flatten ++ u32le pointers.length ++
    (pointers.map u32le).flatten

/-! ## B+-tree descent (bplus.go: `Tree.search`, `Tree.Read`)

`store.Load` is abstracted by a function `loadFn : Nat → Option Buf` giving the
buffer a successful Load returns for a page id (`none` = Load error).
Recursion is bounded by explicit fuel (the Go code recurses per tree level). -/

/-- Errors surfaced by the modelled `Read`: `keyNotFound` is `ErrKeyNotFound`;
`loadFailed` a propagated `store.Load` error; `pageFault` a Go runtime panic
(indexing `keys[0]` or `pointers[len-1]` of an empty slice); `outOfFuel` marks
recursion deeper than the supplied fuel (never hit on real trees). -/
inductive ReadErr
  | keyNotFound
  | loadFailed
  | pageFault
  | outOfFuel
deriving DecidableEq

/-- The `for i := 1; i < len(keys); i++` loop of `Tree.search`: starting at
index `i`, pick `pointers[i]` at the first remaining key with `key < keys[i]`,
otherwise fall through to `pointers[len(pointers)-1]`. `none` models the Go
panic when the pointer index is out of range. -/
def selectLoop (key : Nat) : List Nat → List Nat → Nat → Option Nat
  | [], pointers, _ => pointers.get? (pointers.length - 1)
  | k :: ks, pointers, i =>
      if key < k then pointers.get? i else selectLoop key ks pointers (i + 1)

/-- Child-pointer selection exactly as `Tree.search` performs it: a special
test of `keys[0]` (panicking on an empty key slice), then the loop over
`keys[1:]`, then the last pointer. -/
def selectChildGo (key : Nat) (keys pointers : List Nat) : Option Nat :=
  match keys with
  | [] => none
  | k0 :: krest =>
      if key < k0 then pointers.get? 0 else selectLoop key krest pointers 1

/-- Modelled from the spec's words for claim C2: "the smallest index i such
that key < keys[i]". -/
def firstKeyIdx (key : Nat) : List Nat → Option Nat
  | [] => none
  | k :: ks => if key < k then some 0 else (firstKeyIdx key ks).map (· + 1)

/-- Modelled from the spec's words for claim C2: the child pointer at the
smallest index `i` such that `key < keys[i]`, or the last pointer if no such
index exists. -/
def selectChildSpec (key : Nat) (keys pointers : List Nat) : Option Nat :=
  match firstKeyIdx key keys with
  | some i => pointers.get? i
  | none => pointers.get? (pointers.length - 1)

/-- `Tree.search` translated from the source: decode the tag byte; a leaf is
decoded and returned; a branch selects a child with `selectChildGo`, Loads it
and recurses. -/
def searchGo (loadFn : Nat → Option Buf) (key : Nat) : Nat → Buf → Except ReadErr (List Record)
  | 0, _ => .error .outOfFuel
  | fuel + 1, node =>
      if isLeafPage node then
        .ok (leafFromBuffer node)
      else
        match selectChildGo key (branchFromBuffer node).1 (branchFromBuffer node).2 with
        | none => .error .pageFault
        | some child =>
            match loadFn child with
            | none => .error .loadFailed
            | some childBuf => searchGo loadFn key fuel childBuf

/-- The descent as the spec's words describe it: identical to `searchGo`
except that the child is selected by `selectChildSpec`. -/
def searchSpec (loadFn : Nat → Option Buf) (key : Nat) : Nat → Buf → Except ReadErr (List Record)
  | 0, _ => .error .outOfFuel
  | fuel + 1, node =>
      if isLeafPage node then
        .ok (leafFromBuffer node)
      else
        match selectChildSpec key (branchFromBuffer node).1 (branchFromBuffer node).2 with
        | none => .error .pageFault
        | some child =>
            match loadFn child with
            | none => .error .loadFailed
            | some childBuf => searchSpec loadFn key fuel childBuf

/-- `Tree.Read` translated from the source: `ErrKeyNotFound` on a root with
zero keys, else descend with `searchGo` and scan the leaf's records linearly
for an exact key match. `rootKeys`/`rootBuf` are the resident root's decoded
keys and page buffer. -/
def readGo (loadFn : Nat → Option Buf) (rootKeys : List Nat) (rootBuf : Buf)
    (fuel key : Nat) : Except ReadErr (List Nat) :=
  if rootKeys.length = 0 then .error .keyNotFound
  else
    match searchGo loadFn key fuel rootBuf with
    | .error e => .error e
    | .ok records =>
        match records.find? (fun r => r.key == key) with
        | some r => .ok r.value
        | none => .error .keyNotFound

/-- `Read` as the spec's words describe it (claim C2), using the
smallest-index selection rule in the descent. -/
def readSpec (loadFn : Nat → Option Buf) (rootKeys : List Nat) (rootBuf : Buf)
    (fuel key : Nat) : Except ReadErr (List Nat) :=
  if rootKeys.length = 0 then .error .keyNotFound
  else
    match searchSpec loadFn key fuel rootBuf with
    | .error e => .error e
    | .ok records =>
        match records.find? (fun r => r.key == key) with
        | some r => .ok r.value
        | none => .error .keyNotFound

/-! ## FreeList (free_list.go): an int circular buffer -/

/-- Errors of the FreeList: `ErrFreeListFull` / `ErrFreeListEmpty`. -/
inductive FLErr
  | full
  | empty
deriving DecidableEq

/-- `FreeList` is an int circular buffer (`buf`, `front`, `back`, `size`).
Elements are Go `int`s, modelled as `Int`; the indices are non-negative. -/
structure FreeList where
  buf : List Int
  front : Nat
  back : Nat
  size : Nat
deriving DecidableEq

/-- `NewFreeList` creates a new free list of a given capacity
(`make([]int, capacity)` zero-fills). -/
def NewFreeList (capacity : Nat) : FreeList :=
  { buf := List.replicate capacity 0, front := 0, back := 0, size := 0 }

/-- `Dequeue` removes an item off the front of the free list if one is
present; `(result, state after the call)`. -/
def FreeList.Dequeue (f : FreeList) : Except FLErr Int × FreeList :=
  if f.size = 0 then (.error .empty, f)
  else (.ok (f.buf.getD f.front 0),
        { f with front := (f.front + 1) % f.buf.length, size := f.size - 1 })

/-- `Enqueue` pushes an item onto the back of the free list if there is room;
`(result, state after the call)`. -/
def FreeList.Enqueue (f : FreeList) (id : Int) : Except FLErr Unit × FreeList :=
  if f.size = f.buf.length then (.error .full, f)
  else (.ok (),
        { f with buf := f.buf.set f.back id, back := (f.back + 1) % f.buf.length,
                 size := f.size + 1 })

/-! Ideal FIFO queue model used to state claim C9's strict-FIFO property. -/

/-- Modelled from the spec (claim C9): the ideal capacity-bounded FIFO queue. -/
def mEnqueue (cap : Nat) (q : List Int) (id : Int) : Except FLErr Unit × List Int :=
  if q.length = cap then (.error .full, q) else (.ok (), q ++ [id])

/-- Modelled from the spec (claim C9): ideal dequeue takes the front element. -/
def mDequeue (q : List Int) : Except FLErr Int × List Int :=
  match q with
  | [] => (.error .empty, [])
  | x :: xs => (.ok x, xs)

/-- One FreeList call in an execution trace. -/
inductive FLOp
  | enq (id : Int)
  | deq
deriving DecidableEq

/-- The observable outcome of one FreeList call. -/
inductive FLOut
  | enqOk
  | enqErr (e : FLErr)
  | deqOk (v : Int)
  | deqErr (e : FLErr)
deriving DecidableEq

/-- Run a trace of calls against the circular-buffer FreeList, collecting the
outcome of every call. -/
def runFL : List FLOp → FreeList → List FLOut
  | [], _ => []
  | .enq id :: ops, f =>
      match f.Enqueue id with
      | (.ok _, f') => .enqOk :: runFL ops f'
      | (.error e, f') => .enqErr e :: runFL ops f'
  | .deq :: ops, f =>
      match f.Dequeue with
      | (.ok v, f') => .deqOk v :: runFL ops f'
      | (.error e, f') => .deqErr e :: runFL ops f'

/-- Run the same trace against the ideal FIFO queue. -/
def runModel (cap : Nat) : List FLOp → List Int → List FLOut
  | [], _ => []
  | .enq id :: ops, q =>
      match mEnqueue cap q id with
      | (.ok _, q') => .enqOk :: runModel cap ops q'
      | (.error e, q') => .enqErr e :: runModel cap ops q'
  | .deq :: ops, q =>
      match mDequeue q with
      | (.ok v, q') => .deqOk v :: runModel cap ops q'
      | (.error e, q') => .deqErr e :: runModel cap ops q'

/-- The queue contents a FreeList represents: `size` elements starting at
`front`, wrapping around the circular buffer. -/
def FreeList.toQueue (f : FreeList) : List Int :=
  (List.range f.size).map (fun i => f.buf.getD ((f.front + i) % f.buf.length) 0)

/-- Well-formedness of the circular-buffer representation (holds for
`NewFreeList` and is preserved by both operations). -/
def FreeList.WF (f : FreeList) : Prop :=
  f.size ≤ f.buf.length ∧
    (f.buf.length = 0 → f.size = 0 ∧ f.front = 0 ∧ f.back = 0) ∧
    (0 < f.buf.length →
      f.front < f.buf.length ∧ f.back = (f.front + f.size) % f.buf.length)

/-! ## PageStore (page_store.go)

The store owns: the backing file, the cache (`[]Page`), the `PageID → slot`
map, the FreeList of unused cache slots, and the decoded header shadowing
cache slot 0. `headerPage`/`freePage` hold a `*Page` pointer into the cache;
the model keeps that aliasing explicit by tracking cache *indices*. -/

/-- `Page` holds the id of a page as well as its buffer. -/
structure Page where
  id : Nat
  buf : Buf
deriving DecidableEq

/-- The zero `Page` a fresh cache slot holds (`make([]Page, cacheCapacity)`). -/
def defaultPage : Page :=
  { id := 0, buf := List.replicate PageSize 0 }

/-- The decoded header fields shadowing cache slot 0. -/
structure HeaderFields where
  magicNumber : Nat
  freeList : Nat
  size : Nat
deriving DecidableEq

/-- Insert or replace a key in an association list (Go map assignment). -/
def aset {α : Type} : List (Nat × α) → Nat → α → List (Nat × α)
  | [], k, v => [(k, v)]
  | (k', v') :: rest, k, v =>
      if k' = k then (k, v) :: rest else (k', v') :: aset rest k v

/-- Remove a key from an association list (Go `delete`). -/
def aerase {α : Type} : List (Nat × α) → Nat → List (Nat × α)
  | [], _ => []
  | (k', v') :: rest, k => if k' = k then rest else (k', v') :: aerase rest k

/-- The backing file: pages written so far and the file size in bytes
(writes of page `p` extend the file to at least `(p+1)*PageSize`). -/
structure FileModel where
  pages : List (Nat × Buf)
  sizeBytes : Nat
deriving DecidableEq

/-- What `file.Read` at offset `pageID*PageSize` yields. `ok` = a full page of
bytes; `eof` = reading past end of file (0 bytes read, `io.EOF`); `short` = a
short read of the given bytes with a nil error; `ioErr` = any other read
error. The pure file model only ever produces `ok` or `eof`; `short`/`ioErr`
model storage faults injected by the environment. -/
inductive ReadOutcome
  | ok (b : Buf)
  | eof
  | short (bs : List Nat)
  | ioErr
deriving DecidableEq

/-- Reading one page from the modelled file. All writes are whole pages, so a
read either returns a full page (zero-filled if never explicitly written,
matching lazily-materialized file bytes) or hits end-of-file. -/
def FileModel.readPage (file : FileModel) (pageID : Nat) : ReadOutcome :=
  if (pageID + 1) * PageSize ≤ file.sizeBytes then
    .ok ((List.lookup pageID file.pages).getD (List.replicate PageSize 0))
  else .eof

/-- Writing one page to the modelled file at offset `pageID*PageSize`. -/
def FileModel.writePage (file : FileModel) (pageID : Nat) (buf : Buf) : FileModel :=
  { pages := aset file.pages pageID buf,
    sizeBytes := max file.sizeBytes ((pageID + 1) * PageSize) }

/-- Errors of the PageStore. `freeListFull` is `ErrFreeListFull` escaping from
`releaseCacheSlot`; `panicked` models a Go runtime panic (slice index out of
range, or the explicit `panic` in `allocateFromFreeList`). -/
inductive StoreErr
  | pageCacheFull
  | pageNotFullyWritten
  | pageNotFullyRead
  | pageNotLoaded
  | ioError
  | freeListFull
  | panicked
deriving DecidableEq

/-- The whole `PageStore` state. -/
structure StoreState where
  cache : List Page
  lookup : List (Nat × Nat)
  freeList : FreeList
  header : HeaderFields
  file : FileModel
deriving DecidableEq

/-- `loadPage(pageID, cacheID)` given the outcome of the `file.Read` call.
Faithful to the source order: the buffer is filled, then `cache[cacheID].ID`
and the lookup entry are set, and only then are read errors checked — so a
failing load has already registered the mapping. The seek is modelled as
always succeeding. -/
def loadPageWith (outcome : ReadOutcome) (s : StoreState) (pageID cacheID : Nat) :
    Option StoreErr × StoreState :=
  let oldBuf := (s.cache.getD cacheID defaultPage).buf
  let newBuf :=
    match outcome with
    | .ok b => b
    | .eof => oldBuf
    | .short bs => bs ++ oldBuf.drop bs.length
    | .ioErr => oldBuf
  let s' : StoreState :=
    { s with cache := s.cache.set cacheID { id := pageID, buf := newBuf },
             lookup := aset s.lookup pageID cacheID }
  match outcome with
  | .ok _ => (none, s')
  | .eof => (none, s')
  | .ioErr => (some .ioError, s')
  | .short bs => (if bs.length = PageSize then none else some .pageNotFullyRead, s')

/-- `Load(pageID)` with an injected read outcome (used when the page is not
yet resident). Returns the cache index of the `*Page` the Go code returns.
Faithful to the source bugs: `nextFreeCacheSlot` compares the `Dequeue` error
against `ErrFreeListFull` (which `Dequeue` never returns), so the
`ErrPageCacheFull` branch is dead and an empty free list yields slot 0; and
the returned pointer is `&s.cache[pageID]`, indexed by the page id, not by
the slot that was populated (`panicked` when that index is out of range). -/
def StoreState.LoadWith (s : StoreState) (outcome : ReadOutcome) (pageID : Nat) :
    Except StoreErr Nat × StoreState :=
  match List.lookup pageID s.lookup with
  | some cacheID => (.ok cacheID, s)
  | none =>
      let dq := s.freeList.Dequeue
      let s₁ : StoreState := { s with freeList := dq.2 }
      let cacheID : Nat := match dq.1 with | .ok id => id.toNat | .error _ => 0
      let noMoreSpace : Bool := match dq.1 with | .error .full => true | _ => false
      if noMoreSpace then (.error .pageCacheFull, s₁)
      else
        match loadPageWith outcome s₁ pageID cacheID with
        | (some e, s₂) => (.error e, s₂)
        | (none, s₂) =>
            if pageID < s₂.cache.length then (.ok pageID, s₂)
            else (.error .panicked, s₂)

/-- `Load(pageID)`: the read outcome comes from the backing file. -/
def StoreState.Load (s : StoreState) (pageID : Nat) : Except StoreErr Nat × StoreState :=
  s.LoadWith (s.file.readPage pageID) pageID

/-- `Release(pageID)`: remove the mapping and return the slot to the
FreeList. The delete happens before the enqueue, as in the source. -/
def StoreState.Release (s : StoreState) (pageID : Nat) : Option StoreErr × StoreState :=
  match List.lookup pageID s.lookup with
  | none => (some .pageNotLoaded, s)
  | some cacheID =>
      let s₁ : StoreState := { s with lookup := aerase s.lookup pageID }
      match s₁.freeList.Enqueue (Int.ofNat cacheID) with
      | (.ok _, fl') => (none, { s₁ with freeList := fl' })
      | (.error _, fl') => (some .freeListFull, { s₁ with freeList := fl' })

/-- `Write(pageID)`: dump the page's cached buffer to the file. Short writes
and write I/O errors are not produced by the pure file model. -/
def StoreState.Write (s : StoreState) (pageID : Nat) : Option StoreErr × StoreState :=
  match List.lookup pageID s.lookup with
  | none => (some .pageNotLoaded, s)
  | some cacheID =>
      (none, { s with
        file := s.file.writePage pageID (s.cache.getD cacheID defaultPage).buf })

/-- `headerPage.toBuffer`: the header aliases `&s.cache[0]`, so encoding the
decoded fields writes into cache slot 0's buffer. -/
def headerToBuffer (s : StoreState) : StoreState :=
  let slot0 := s.cache.getD 0 defaultPage
  let buf0 := putU32 (putU32 (putU32 slot0.buf 0 s.header.magicNumber)
    4 s.header.freeList) 8 s.header.size
  { s with cache := s.cache.set 0 { id := slot0.id, buf := buf0 } }

/-- `s.header.ID`: the header's embedded `*Page` is `&s.cache[0]`, so its ID
field is whatever page id cache slot 0 currently records. -/
def headerID (s : StoreState) : Nat :=
  (s.cache.getD 0 defaultPage).id

/-- `allocateFromEndOfFile`: hand out `size`, increment it, persist the header. -/
def StoreState.allocateFromEndOfFile (s : StoreState) : Except StoreErr Nat × StoreState :=
  let nextFreePageID := s.header.size
  let s₁ := headerToBuffer { s with header := { s.header with size := s.header.size + 1 } }
  match s₁.Write (headerID s₁) with
  | (some e, s₂) => (.error e, s₂)
  | (none, s₂) => (.ok nextFreePageID, s₂)

/-- `allocateFromFreeList`: Load the page at the header's free-list offset,
decode its `nextFreePage` (from the buffer of the `*Page` Load returned),
advance the header pointer, persist the header. The guard panic corresponds
to `panic("allocateFromFreeList was called with freeList == 0")`. -/
def StoreState.allocateFromFreeList (s : StoreState) : Except StoreErr Nat × StoreState :=
  if s.header.freeList = 0 then (.error .panicked, s)
  else
    let firstFreePageID := s.header.freeList / PageSize
    match s.Load firstFreePageID with
    | (.error e, s₁) => (.error e, s₁)
    | (.ok idx, s₁) =>
        let nextFree := getU32 (s₁.cache.getD idx defaultPage).buf 0
        let s₂ := headerToBuffer { s₁ with header := { s₁.header with freeList := nextFree } }
        match s₂.Write (headerID s₂) with
        | (some e, s₃) => (.error e, s₃)
        | (none, s₃) => (.ok firstFreePageID, s₃)

/-- `Allocate`: reuse from the on-disk free list when the header's pointer is
nonzero, otherwise grow the file. -/
def StoreState.Allocate (s : StoreState) : Except StoreErr Nat × StoreState :=
  if s.header.freeList ≠ 0 then s.allocateFromFreeList else s.allocateFromEndOfFile

/-- `Free(id)`: snapshot the current free-list pointer, Load the page, zero
the returned `*Page`'s buffer, encode it as a free page pointing at the old
head, `Write(free.ID)`, point the header at `id*PageSize`, and then — as the
source does — `Write(free.ID)` a second time (the header page itself is never
written). -/
def StoreState.Free (s : StoreState) (id : Nat) : Option StoreErr × StoreState :=
  let currentFirstFreePage := s.header.freeList
  match s.Load id with
  | (.error e, s₁) => (some e, s₁)
  | (.ok idx, s₁) =>
      let freeBuf := putU32 (List.replicate PageSize 0) 0 currentFirstFreePage
      let cache₂ := s₁.cache.set idx
        { id := (s₁.cache.getD idx defaultPage).id, buf := freeBuf }
      let s₂ : StoreState := { s₁ with cache := cache₂ }
      let freeID := (s₂.cache.getD idx defaultPage).id
      match s₂.Write freeID with
      | (some e, s₃) => (some e, s₃)
      | (none, s₃) =>
          let s₄ := headerToBuffer
            { s₃ with header := { s₃.header with freeList := id * PageSize } }
          s₄.Write freeID

/-- The `for id := 1; id < cacheCapacity; id++` enqueue loop of
`NewPageStore`, counting down the `n` remaining slots. -/
def enqueueSlots : StoreState → Nat → Nat → Option StoreErr × StoreState
  | s, _, 0 => (none, s)
  | s, id, n + 1 =>
      match s.freeList.Enqueue (Int.ofNat id) with
      | (.ok _, fl') => enqueueSlots { s with freeList := fl' } (id + 1) n
      | (.error _, fl') => (some .freeListFull, { s with freeList := fl' })

/-- `NewPageStore` on a fresh (empty) backing file: load page 0 into slot 0
(EOF, zero-filled), decode the header, find no magic number, initialize and
persist the header, then enqueue cache slots `1 .. cacheCapacity-1`. -/
def NewPageStoreFresh (cacheCapacity : Nat) : Option StoreErr × StoreState :=
  let s₀ : StoreState :=
    { cache := List.replicate cacheCapacity defaultPage,
      lookup := [],
      freeList := NewFreeList 0,
      header := { magicNumber := 0, freeList := 0, size := 0 },
      file := { pages := [], sizeBytes := 0 } }
  match loadPageWith (s₀.file.readPage 0) s₀ 0 0 with
  | (some e, s₁) => (some e, s₁)
  | (none, s₁) =>
      let buf0 := (s₁.cache.getD 0 defaultPage).buf
      let s₂ : StoreState := { s₁ with header :=
        { magicNumber := getU32 buf0 0, freeList := getU32 buf0 4, size := getU32 buf0 8 } }
      -- On a fresh file the decoded magic is 0 ≠ MagicNumber, so the setup
      -- branch of `NewPageStore` always runs: set the fields, encode them,
      -- persist the header page.
      let s₃ := headerToBuffer
        { s₂ with header := { magicNumber := MagicNumber, freeList := 0, size := 1 } }
      match s₃.Write (headerID s₃) with
      | (some e, s₄) => (some e, s₄)
      | (none, s₄) =>
          enqueueSlots { s₄ with freeList := NewFreeList cacheCapacity } 1
            (cacheCapacity - 1)

/-! ## Concrete execution traces used by the claims -/

/-- Run `n` successive `Allocate` calls, collecting the returned PageIDs
(`none` if any call returns an error). -/
def allocSeq : Nat → StoreState → Option (List Nat × StoreState)
  | 0, s => some ([], s)
  | n + 1, s =>
      match s.Allocate with
      | (.ok id, s') =>
          match allocSeq n s' with
          | some (ids, s'') => some (id :: ids, s'')
          | none => none
      | (.error _, _) => none

/-- Run `Free` on each listed PageID in order (`none` if any call errors). -/
def freeSeq : List Nat → StoreState → Option StoreState
  | [], s => some s
  | id :: ids, s =>
      match s.Free id with
      | (none, s') => freeSeq ids s'
      | (some _, _) => none

/-- A freshly initialized store with the cache capacity the repository's
allocator test uses (100). -/
def store100 : StoreState := (NewPageStoreFresh 100).2

/-- A freshly initialized store with cache capacity 3. -/
def store3 : StoreState := (NewPageStoreFresh 3).2

/-- A freshly initialized store with cache capacity 2. -/
def store2 : StoreState := (NewPageStoreFresh 2).2

/-- Claim C3's scenario: from a fresh store, 10 Allocates, Free 1..5, 5 more
Allocates, one final Allocate; collects (first ids, size, size after frees,
reused ids, final id, final size). -/
def c3Trace : Option (List Nat × Nat × Nat × List Nat × Nat × Nat) := do
  let (ids1, s1) ← allocSeq 10 store100
  let s2 ← freeSeq [1, 2, 3, 4, 5] s1
  let (ids2, s3) ← allocSeq 5 s2
  let (ids3, s4) ← allocSeq 1 s3
  pure (ids1, s1.header.size, s2.header.size, ids2, ids3.headD 0, s4.header.size)

/-- Claim C7's scenario: every call succeeds, yet PageID 0 ends up out of the
cache mapping and cache slot 0 ends up holding page 2's contents.
`Release 0; Load 1; Load 2; Write 2; Release 2; Load 2` on a capacity-3 store. -/
def c7Trace : StoreState :=
  (((((store3.Release 0).2.Load 1).2.Load 2).2.Write 2).2.Release 2).2.Load 2 |>.2

/-- The state after `Allocate` on the fresh capacity-100 store (page 1 is
handed out); used to exercise `Free`. -/
def storeAfterAlloc : StoreState := store100.Allocate |>.2

/-- Claim C5's scenario: `Free 1` after allocating page 1. -/
def c5Trace : Option StoreErr × StoreState := storeAfterAlloc.Free 1

/-! Concrete two-level tree used to witness claim C2 (the §8 lookup tree,
shrunk to one root and two leaves). -/

/-- A zeroed page buffer. -/
def zeroPage : Buf := List.replicate PageSize 0

/-- Leaf page holding records (1,[1]) and (2,[2]). -/
def leafBufA : Buf := leafToBuffer [{ key := 1, value := [1] }, { key := 2, value := [2] }] zeroPage

/-- Leaf page holding record (9,[9]). -/
def leafBufB : Buf := leafToBuffer [{ key := 9, value := [9] }] zeroPage

/-- Root branch page: keys [7], pointers [2, 3]. -/
def rootBuf0 : Buf := branchToBuffer [7] [2, 3] zeroPage

/-- The page-load function of the witness tree. -/
def loadFn0 : Nat → Option Buf := fun p =>
  if p = 2 then some leafBufA else if p = 3 then some leafBufB else none

/-! # Theorems -/

/-! ## Byte-level lemmas -/

theorem set_append_len {α : Type} (p q : List α) (b : α) :
    (p ++ q).set p.length b = p ++ q.set 0 b := by
  induction p with
  | nil => rfl
  | cons a p' ih => simp [List.set, ih]

theorem putBytesAt_append (buf : Buf) (off : Nat) (xs ys : List Nat) :
    putBytesAt buf off (xs ++ ys) = putBytesAt (putBytesAt buf off xs) (off + xs.length) ys := by
  induction xs generalizing buf off with
  | nil => simp [putBytesAt]
  | cons b bs ih =>
      have h : off + 1 + bs.length = off + (b :: bs).length := by
        simp only [List.length_cons]
        omega
      calc putBytesAt buf off ((b :: bs) ++ ys)
          = putBytesAt (buf.set off b) (off + 1) (bs ++ ys) := rfl
        _ = putBytesAt (putBytesAt (buf.set off b) (off + 1) bs) (off + 1 + bs.length) ys :=
            ih _ _
        _ = putBytesAt (putBytesAt buf off (b :: bs)) (off + (b :: bs).length) ys := by
            rw [h]
            rfl

theorem putBytesAt_spec (bs : List Nat) : ∀ pre suf : List Nat, bs.length ≤ suf.length →
    putBytesAt (pre ++ suf) pre.length bs = pre ++ bs ++ suf.drop bs.length := by
  induction bs with
  | nil => intro pre suf _; simp [putBytesAt]
  | cons b rest ih =>
      intro pre suf hlen
      match suf with
      | [] => simp at hlen
      | s0 :: srest =>
          rw [putBytesAt, set_append_len]
          have h1 : (s0 :: srest).set 0 b = b :: srest := rfl
          rw [h1]
          have h2 : pre ++ b :: srest = (pre ++ [b]) ++ srest := by simp
          have h3 : pre.length + 1 = (pre ++ [b]).length := by simp
          rw [h2, h3, ih (pre ++ [b]) srest (by simpa using hlen)]
          simp [List.drop]

theorem getByte_append_right (p l : List Nat) (i : Nat) :
    getByte (p ++ l) (p.length + i) = getByte l i := by
  unfold getByte
  rw [List.getD_append_right _ _ _ _ (Nat.le_add_right _ _)]
  congr 1
  omega

theorem getU32_append (pre : List Nat) (v : Nat) (rest : List Nat) (hv : v < 2 ^ 32) :
    getU32 (pre ++ (u32le v ++ rest)) pre.length = v := by
  unfold getU32
  have h0 : getByte (pre ++ (u32le v ++ rest)) (pre.length + 0) = v % 256 := by
    rw [getByte_append_right]; rfl
  have h1 : getByte (pre ++ (u32le v ++ rest)) (pre.length + 1) = v / 256 % 256 := by
    rw [getByte_append_right]; rfl
  have h2 : getByte (pre ++ (u32le v ++ rest)) (pre.length + 2) = v / 65536 % 256 := by
    rw [getByte_append_right]; rfl
  have h3 : getByte (pre ++ (u32le v ++ rest)) (pre.length + 3) = v / 16777216 % 256 := by
    rw [getByte_append_right]; rfl
  have h0' := h0
  rw [Nat.add_zero] at h0'
  rw [h0', h1, h2, h3]
  omega

theorem getBytes_range_append (mid : List Nat) : ∀ pre rest : List Nat,
    (List.range mid.length).map (fun i => getByte (pre ++ (mid ++ rest)) (pre.length + i)) = mid := by
  induction mid with
  | nil => intro pre rest; simp
  | cons m ms ih =>
      intro pre rest
      simp only [List.cons_append]
      rw [List.length_cons, List.range_succ_eq_map, List.map_cons, List.map_map]
      have hhead : getByte (pre ++ (m :: (ms ++ rest))) (pre.length + 0) = m :=
        (getByte_append_right pre (m :: (ms ++ rest)) 0).trans rfl
      rw [hhead]
      have htail : ∀ i, ((fun i => getByte (pre ++ (m :: (ms ++ rest))) (pre.length + i)) ∘ Nat.succ) i
          = (fun i => getByte ((pre ++ [m]) ++ (ms ++ rest)) ((pre ++ [m]).length + i)) i := by
        intro i
        simp only [Function.comp_apply]
        have hre : pre ++ (m :: (ms ++ rest)) = (pre ++ [m]) ++ (ms ++ rest) := by simp
        have hidx : pre.length + Nat.succ i = (pre ++ [m]).length + i := by
          simp
          omega
        rw [hre, hidx]
      refine congrArg (List.cons m) ?_
      calc
        List.map ((fun i => getByte (pre ++ (m :: (ms ++ rest))) (pre.length + i)) ∘ Nat.succ)
            (List.range ms.length)
            = List.map (fun i => getByte ((pre ++ [m]) ++ (ms ++ rest)) ((pre ++ [m]).length + i))
              (List.range ms.length) := List.map_congr_left (fun i _ => htail i)
        _ = ms := ih (pre ++ [m]) rest

/-! ## Codec lemmas: the encoders write their streams sequentially -/

theorem u32le_length (v : Nat) : (u32le v).length = 4 := rfl

theorem recBytes_length (r : Record) : (recBytes r).length = 8 + r.value.length := by
  simp [recBytes, u32le]
  omega

theorem recsBytes_cons (r : Record) (rs : List Record) :
    recsBytes (r :: rs) = recBytes r ++ recsBytes rs := rfl

theorem recsBytes_length_ge (rs : List Record) : 8 * rs.length ≤ (recsBytes rs).length := by
  induction rs with
  | nil => simp [recsBytes]
  | cons r rs ih =>
      rw [recsBytes_cons, List.length_append, recBytes_length, List.length_cons]
      omega

theorem recBytes_le_of_mem (rs : List Record) (r : Record) (h : r ∈ rs) :
    8 + r.value.length ≤ (recsBytes rs).length := by
  induction rs with
  | nil => simp at h
  | cons r' rs ih =>
      rw [recsBytes_cons, List.length_append, recBytes_length]
      rcases List.mem_cons.mp h with rfl | hmem
      · omega
      · have := ih hmem
        omega

theorem flatten_u32_length (vs : List Nat) : ((vs.map u32le).flatten).length = 4 * vs.length := by
  induction vs with
  | nil => simp
  | cons v vs ih =>
      simp only [List.map_cons, List.flatten_cons, List.length_append, List.length_cons, ih,
        u32le_length]
      omega

theorem leafRecToBuf_eq (rs : List Record) : ∀ (buf : Buf) (cur : Nat),
    leafRecToBuf buf cur rs = putBytesAt buf cur (recsBytes rs) := by
  induction rs with
  | nil => intro buf cur; rfl
  | cons r rs ih =>
      intro buf cur
      rw [recsBytes_cons, putBytesAt_append, recBytes_length]
      have e : recBytes r = u32le r.key ++ (u32le r.value.length ++ r.value) := by
        simp [recBytes]
      have e2 : putBytesAt buf cur (recBytes r) =
          valueToBuffer (keyToBuffer buf cur r.key) (cur + 4) r.value := by
        rw [e, putBytesAt_append, putBytesAt_append, u32le_length]
        rfl
      rw [e2, leafRecToBuf, ih]
      have harith : cur + 4 + (4 + r.value.length) = cur + (8 + r.value.length) := by omega
      rw [harith]

theorem leafToBuffer_eq (rs : List Record) (buf : Buf) :
    leafToBuffer rs buf = putBytesAt buf 0 (leafStream rs) := by
  have e : leafStream rs = [1] ++ (u32le rs.length ++ recsBytes rs) := by
    simp [leafStream]
  rw [e, putBytesAt_append, putBytesAt_append, u32le_length]
  rw [leafToBuffer, leafRecToBuf_eq]
  rfl

theorem writeU32List_eq (vs : List Nat) : ∀ (buf : Buf) (cur : Nat),
    writeU32List buf cur vs = putBytesAt buf cur ((vs.map u32le).flatten) := by
  induction vs with
  | nil => intro buf cur; rfl
  | cons v vs ih =>
      intro buf cur
      simp only [List.map_cons, List.flatten_cons]
      rw [putBytesAt_append, u32le_length, writeU32List, ih]
      rfl

theorem branchToBuffer_eq (keys pointers : List Nat) (buf : Buf) :
    branchToBuffer keys pointers buf = putBytesAt buf 0 (branchStream keys pointers) := by
  have e : branchStream keys pointers =
      [0] ++ (u32le keys.length ++ ((keys.map u32le).flatten ++
        (u32le pointers.length ++ (pointers.map u32le).flatten))) := by
    simp [branchStream]
  rw [e, putBytesAt_append, putBytesAt_append, putBytesAt_append, putBytesAt_append]
  rw [branchToBuffer, writeU32List_eq, writeU32List_eq]
  simp only [u32le_length, List.length_append, flatten_u32_length, List.length_singleton,
    Nat.zero_add]
  have h1 : (1 : Nat) + 4 = 5 := by omega
  have h2 : 1 + 4 + 4 * keys.length = 5 + 4 * keys.length := by omega
  have h3 : 1 + 4 + 4 * keys.length + 4 = 5 + 4 * keys.length + 4 := by omega
  rw [h1, h2, h3]
  rfl

/-! ## Codec lemmas: decoding a written stream recovers the data -/

theorem readU32List_append (vs : List Nat) : ∀ pre junk : List Nat,
    (∀ v ∈ vs, v < 2 ^ 32) →
    readU32List (pre ++ ((vs.map u32le).flatten ++ junk)) vs.length pre.length = vs := by
  induction vs with
  | nil => intro pre junk _; rfl
  | cons v vs ih =>
      intro pre junk hv
      simp only [List.map_cons, List.flatten_cons, List.length_cons]
      rw [readU32List]
      have e : pre ++ ((u32le v ++ (vs.map u32le).flatten) ++ junk) =
          pre ++ (u32le v ++ ((vs.map u32le).flatten ++ junk)) := by
        simp
      rw [e, getU32_append pre v _ (hv v (List.mem_cons_self v vs))]
      have e2 : pre ++ (u32le v ++ ((vs.map u32le).flatten ++ junk)) =
          (pre ++ u32le v) ++ ((vs.map u32le).flatten ++ junk) := by
        simp
      have e3 : pre.length + 4 = (pre ++ u32le v).length := by
        simp [u32le]
      rw [e2, e3, ih (pre ++ u32le v) junk (fun w hw => hv w (List.mem_cons_of_mem v hw))]

theorem leafRecFromBuf_append (rs : List Record) : ∀ pre junk : List Nat,
    (∀ r ∈ rs, r.key < 2 ^ 32) → (∀ r ∈ rs, r.value.length < 2 ^ 32) →
    leafRecFromBuf rs.length (pre ++ (recsBytes rs ++ junk)) pre.length = rs := by
  induction rs with
  | nil => intro pre junk _ _; rfl
  | cons r rs ih =>
      intro pre junk hk hv
      simp only [List.length_cons]
      rw [leafRecFromBuf]
      have e1 : pre ++ (recsBytes (r :: rs) ++ junk) =
          pre ++ (u32le r.key ++ (u32le r.value.length ++ (r.value ++ (recsBytes rs ++ junk)))) := by
        simp [recsBytes_cons, recBytes]
      have hkey : keyFromBuffer (pre ++ (recsBytes (r :: rs) ++ junk)) pre.length = r.key := by
        rw [keyFromBuffer, e1]
        exact getU32_append pre r.key _ (hk r (List.mem_cons_self r rs))
      have e2 : pre ++ (recsBytes (r :: rs) ++ junk) =
          (pre ++ u32le r.key) ++ (u32le r.value.length ++ (r.value ++ (recsBytes rs ++ junk))) := by
        simp [recsBytes_cons, recBytes]
      have l1 : (pre ++ u32le r.key).length = pre.length + 4 := by
        simp [u32le]
      have hlen : getU32 (pre ++ (recsBytes (r :: rs) ++ junk)) (pre.length + 4) =
          r.value.length := by
        rw [e2, ← l1]
        exact getU32_append _ _ _ (hv r (List.mem_cons_self r rs))
      have e3 : pre ++ (recsBytes (r :: rs) ++ junk) =
          (pre ++ u32le r.key ++ u32le r.value.length) ++ (r.value ++ (recsBytes rs ++ junk)) := by
        simp [recsBytes_cons, recBytes]
      have l3 : (pre ++ u32le r.key ++ u32le r.value.length).length = pre.length + 8 := by
        simp [u32le]
      have hval : (valueFromBuffer (pre ++ (recsBytes (r :: rs) ++ junk)) (pre.length + 4)).1 =
          r.value := by
        rw [valueFromBuffer, hlen]
        calc (List.range r.value.length).map
              (fun i => getByte (pre ++ (recsBytes (r :: rs) ++ junk)) (pre.length + 4 + 4 + i))
            = (List.range r.value.length).map
              (fun i => getByte ((pre ++ u32le r.key ++ u32le r.value.length) ++
                (r.value ++ (recsBytes rs ++ junk)))
                ((pre ++ u32le r.key ++ u32le r.value.length).length + i)) := by
              refine List.map_congr_left ?_
              intro i _
              rw [← e3, l3]
          _ = r.value := getBytes_range_append r.value _ _
      have hadv : (valueFromBuffer (pre ++ (recsBytes (r :: rs) ++ junk)) (pre.length + 4)).2 =
          r.value.length + 4 := by
        rw [valueFromBuffer, hlen]
      rw [hkey, hval, hadv]
      have e4 : pre ++ (recsBytes (r :: rs) ++ junk) =
          (pre ++ recBytes r) ++ (recsBytes rs ++ junk) := by
        simp [recsBytes_cons]
      have l4 : (pre ++ recBytes r).length = pre.length + 4 + (r.value.length + 4) := by
        rw [List.length_append, recBytes_length]
        omega
      rw [e4, ← l4, ih (pre ++ recBytes r) junk
        (fun w hw => hk w (List.mem_cons_of_mem r hw))
        (fun w hw => hv w (List.mem_cons_of_mem r hw))]

/-! ## Full codec roundtrips -/

theorem leafToBuffer_fromBuffer (records : List Record) (buf : Buf)
    (hbuf : buf.length = PageSize)
    (hfit : (leafStream records).length ≤ PageSize)
    (hkey : ∀ r ∈ records, r.key < 2 ^ 32) :
    leafFromBuffer (leafToBuffer records buf) = records := by
  have hsl : (leafStream records).length = 5 + (recsBytes records).length := by
    simp [leafStream, u32le]
    omega
  have hge := recsBytes_length_ge records
  have hN : records.length < 2 ^ 32 := by
    rw [hsl] at hfit
    simp only [PageSize] at hfit
    omega
  have hvl : ∀ r ∈ records, r.value.length < 2 ^ 32 := by
    intro r hr
    have := recBytes_le_of_mem records r hr
    rw [hsl] at hfit
    simp only [PageSize] at hfit
    omega
  have henc : leafToBuffer records buf =
      leafStream records ++ buf.drop (leafStream records).length := by
    rw [leafToBuffer_eq]
    have h := putBytesAt_spec (leafStream records) [] buf (by rw [hbuf]; exact hfit)
    simpa using h
  rw [henc]
  have hcount : getU32 (leafStream records ++ buf.drop (leafStream records).length) 1 =
      records.length := by
    have e1 : leafStream records ++ buf.drop (leafStream records).length =
        [1] ++ (u32le records.length ++
          (recsBytes records ++ buf.drop (leafStream records).length)) := by
      simp [leafStream]
    rw [e1]
    exact getU32_append [1] records.length _ hN
  unfold leafFromBuffer
  rw [hcount]
  have e2 : leafStream records ++ buf.drop (leafStream records).length =
      (1 :: u32le records.length) ++
        (recsBytes records ++ buf.drop (leafStream records).length) := by
    simp [leafStream]
  rw [e2]
  exact leafRecFromBuf_append records (1 :: u32le records.length) _ hkey hvl

theorem branchToBuffer_fromBuffer (keys pointers : List Nat) (buf : Buf)
    (hbuf : buf.length = PageSize)
    (hfit : (branchStream keys pointers).length ≤ PageSize)
    (hks : ∀ k ∈ keys, k < 2 ^ 32)
    (hps : ∀ p ∈ pointers, p < 2 ^ 32) :
    branchFromBuffer (branchToBuffer keys pointers buf) = (keys, pointers) := by
  have hsl : (branchStream keys pointers).length =
      5 + 4 * keys.length + 4 + 4 * pointers.length := by
    rw [branchStream]
    simp only [List.length_cons, List.length_append, flatten_u32_length, u32le_length]
    try omega
  have hK : keys.length < 2 ^ 32 := by
    rw [hsl] at hfit
    simp only [PageSize] at hfit
    omega
  have hP : pointers.length < 2 ^ 32 := by
    rw [hsl] at hfit
    simp only [PageSize] at hfit
    omega
  have henc : branchToBuffer keys pointers buf =
      branchStream keys pointers ++ buf.drop (branchStream keys pointers).length := by
    rw [branchToBuffer_eq]
    have h := putBytesAt_spec (branchStream keys pointers) [] buf (by rw [hbuf]; exact hfit)
    simpa using h
  rw [henc]
  have h1 : getU32 (branchStream keys pointers ++ buf.drop (branchStream keys pointers).length)
      1 = keys.length := by
    have e1 : branchStream keys pointers ++ buf.drop (branchStream keys pointers).length =
        [0] ++ (u32le keys.length ++ ((keys.map u32le).flatten ++ (u32le pointers.length ++
          ((pointers.map u32le).flatten ++ buf.drop (branchStream keys pointers).length)))) := by
      simp [branchStream]
    rw [e1]
    exact getU32_append [0] keys.length _ hK
  have h2 : readU32List
      (branchStream keys pointers ++ buf.drop (branchStream keys pointers).length)
      keys.length 5 = keys := by
    have e2 : branchStream keys pointers ++ buf.drop (branchStream keys pointers).length =
        (0 :: u32le keys.length) ++ ((keys.map u32le).flatten ++ (u32le pointers.length ++
          ((pointers.map u32le).flatten ++ buf.drop (branchStream keys pointers).length))) := by
      simp [branchStream]
    rw [e2]
    exact readU32List_append keys (0 :: u32le keys.length) _ hks
  have l2 : (0 :: (u32le keys.length ++ (keys.map u32le).flatten)).length =
      5 + 4 * keys.length := by
    simp only [List.length_cons, List.length_append, flatten_u32_length, u32le_length]
    omega
  have h3 : getU32 (branchStream keys pointers ++ buf.drop (branchStream keys pointers).length)
      (5 + 4 * keys.length) = pointers.length := by
    have e3 : branchStream keys pointers ++ buf.drop (branchStream keys pointers).length =
        (0 :: (u32le keys.length ++ (keys.map u32le).flatten)) ++ (u32le pointers.length ++
          ((pointers.map u32le).flatten ++ buf.drop (branchStream keys pointers).length)) := by
      simp [branchStream]
    rw [e3, ← l2]
    exact getU32_append _ pointers.length _ hP
  have l3 : (0 :: (u32le keys.length ++ ((keys.map u32le).flatten ++ u32le pointers.length))).length =
      5 + 4 * keys.length + 4 := by
    simp only [List.length_cons, List.length_append, flatten_u32_length, u32le_length]
    omega
  have h4 : readU32List
      (branchStream keys pointers ++ buf.drop (branchStream keys pointers).length)
      pointers.length (5 + 4 * keys.length + 4) = pointers := by
    have e4 : branchStream keys pointers ++ buf.drop (branchStream keys pointers).length =
        (0 :: (u32le keys.length ++ ((keys.map u32le).flatten ++ u32le pointers.length))) ++
          ((pointers.map u32le).flatten ++ buf.drop (branchStream keys pointers).length) := by
      simp [branchStream]
    rw [e4, ← l3]
    exact readU32List_append pointers _ _ hps
  unfold branchFromBuffer
  rw [h1, h3, h2, h4]

/-- C6: for every branch page content (K ascending unique keys and K+1
pointers) and every leaf page content (records with unique ascending keys and
arbitrary-length values) whose encoding fits within the 4096-byte page,
decoding the encoded buffer reproduces exactly the original keys, pointers,
and ordered records: decode(encode(x)) = x. -/
theorem c6_codec_roundtrip (records : List Record) (keys pointers : List Nat)
    (bufL bufB : Buf)
    (hbufL : bufL.length = PageSize) (hbufB : bufB.length = PageSize)
    (hfitL : (leafStream records).length ≤ PageSize)
    (hfitB : (branchStream keys pointers).length ≤ PageSize)
    (hkey : ∀ r ∈ records, r.key < 2 ^ 32)
    (hasc : List.Chain' (· < ·) (records.map Record.key))
    (hbytes : ∀ r ∈ records, ∀ b ∈ r.value, b < 256)
    (hks : ∀ k ∈ keys, k < 2 ^ 32)
    (hps : ∀ p ∈ pointers, p < 2 ^ 32)
    (hascB : List.Chain' (· < ·) keys)
    (hKP : pointers.length = keys.length + 1) :
    leafFromBuffer (leafToBuffer records bufL) = records ∧
      branchFromBuffer (branchToBuffer keys pointers bufB) = (keys, pointers) :=
  ⟨leafToBuffer_fromBuffer records bufL hbufL hfitL hkey,
   branchToBuffer_fromBuffer keys pointers bufB hbufB hfitB hks hps⟩

/-- Witness for C6 at a concrete leaf and branch. -/
theorem c6_codec_roundtrip_witness :
    leafFromBuffer (leafToBuffer
        [{ key := 1, value := [1] }, { key := 2, value := [2] }] zeroPage) =
      [{ key := 1, value := [1] }, { key := 2, value := [2] }] ∧
    branchFromBuffer (branchToBuffer [3, 5] [2, 3, 4] zeroPage) = ([3, 5], [2, 3, 4]) :=
  c6_codec_roundtrip [{ key := 1, value := [1] }, { key := 2, value := [2] }]
    [3, 5] [2, 3, 4] zeroPage zeroPage
    (by rw [zeroPage, List.length_replicate]) (by rw [zeroPage, List.length_replicate])
    (by decide) (by decide) (by decide)
    (by norm_num [List.chain'_cons])
    (by decide) (by decide) (by decide)
    (by norm_num [List.chain'_cons])
    (by decide)

/-! ## Descent equivalence (claim C2) -/

theorem selectLoop_eq (key : Nat) (ks : List Nat) : ∀ (pointers : List Nat) (i : Nat),
    selectLoop key ks pointers i =
      (match firstKeyIdx key ks with
       | some j => pointers.get? (i + j)
       | none => pointers.get? (pointers.length - 1)) := by
  induction ks with
  | nil => intro pointers i; rfl
  | cons k ks ih =>
      intro pointers i
      rw [selectLoop, firstKeyIdx]
      by_cases h : key < k
      · simp [h]
      · rw [if_neg h, if_neg h, ih pointers (i + 1)]
        cases hf : firstKeyIdx key ks with
        | none => simp
        | some j =>
            have e : i + 1 + j = i + (j + 1) := by omega
            simp [e]

theorem selectChildGo_eq_spec (key : Nat) (keys pointers : List Nat) (hne : keys ≠ []) :
    selectChildGo key keys pointers = selectChildSpec key keys pointers := by
  match keys with
  | [] => exact absurd rfl hne
  | k0 :: krest =>
      rw [selectChildGo, selectChildSpec, firstKeyIdx]
      by_cases h : key < k0
      · simp [h]
      · rw [if_neg h, if_neg h, selectLoop_eq key krest pointers 1]
        cases hf : firstKeyIdx key krest with
        | none => simp
        | some j =>
            have e : 1 + j = j + 1 := by omega
            simp [e]

theorem searchGo_eq_spec (loadFn : Nat → Option Buf) (key : Nat)
    (hwf : ∀ b, (∃ p, loadFn p = some b) → isLeafPage b = false →
      (branchFromBuffer b).1 ≠ []) :
    ∀ (fuel : Nat) (node : Buf),
      (isLeafPage node = false → (branchFromBuffer node).1 ≠ []) →
      searchGo loadFn key fuel node = searchSpec loadFn key fuel node := by
  intro fuel
  induction fuel with
  | zero => intro node _; rfl
  | succ n ih =>
      intro node hnode
      rw [searchGo, searchSpec]
      by_cases hl : isLeafPage node = true
      · rw [if_pos hl, if_pos hl]
      · have hlf : isLeafPage node = false := by
          revert hl
          cases isLeafPage node <;> simp
        rw [if_neg hl, if_neg hl,
          selectChildGo_eq_spec key (branchFromBuffer node).1 (branchFromBuffer node).2
            (hnode hlf)]
        cases hsel : selectChildSpec key (branchFromBuffer node).1 (branchFromBuffer node).2 with
        | none => rfl
        | some child =>
            show (match loadFn child with
                  | none => Except.error ReadErr.loadFailed
                  | some childBuf => searchGo loadFn key n childBuf) =
                (match loadFn child with
                  | none => Except.error ReadErr.loadFailed
                  | some childBuf => searchSpec loadFn key n childBuf)
            cases hld : loadFn child with
            | none => rfl
            | some childBuf =>
                exact ih childBuf (fun hleaf => hwf childBuf ⟨child, hld⟩ hleaf)

/-- C2: `Read(key)` fails with `KeyNotFound` when the root has zero keys;
otherwise it descends from the root, and at each branch selects the child
pointer at the smallest index i such that key < keys[i] (the last pointer if
no such index exists), loads that page and repeats until a leaf, where a
linear scan returns the value of the record whose key equals `key`, or fails
with `KeyNotFound`. Stated as: the translated `Tree.Read` (`readGo`) computes
exactly the procedure the spec's words describe (`readSpec`), for any tree in
which every reachable branch page has at least one key (on an empty branch
the Go code panics indexing `keys[0]`, so the rule is only exercised on
nonempty branches). -/
theorem c2_read_descent (loadFn : Nat → Option Buf) (rootKeys : List Nat) (rootBuf : Buf)
    (fuel key : Nat)
    (hroot : isLeafPage rootBuf = false → (branchFromBuffer rootBuf).1 ≠ [])
    (hwf : ∀ b, (∃ p, loadFn p = some b) → isLeafPage b = false →
      (branchFromBuffer b).1 ≠ []) :
    readGo loadFn rootKeys rootBuf fuel key = readSpec loadFn rootKeys rootBuf fuel key := by
  unfold readGo readSpec
  rw [searchGo_eq_spec loadFn key hwf fuel rootBuf hroot]

/-- Witness for C2 on the concrete two-level tree. -/
theorem c2_read_descent_witness :
    readGo loadFn0 [7] rootBuf0 5 3 = readSpec loadFn0 [7] rootBuf0 5 3 := by
  refine c2_read_descent loadFn0 [7] rootBuf0 5 3 (fun _ => by decide) ?_
  rintro b ⟨p, hp⟩ hleaf
  by_cases h2 : p = 2
  · subst h2
    have hb : b = leafBufA := by simpa [loadFn0] using hp.symm
    subst hb
    have ht : isLeafPage leafBufA = true := by decide
    rw [ht] at hleaf
    exact absurd hleaf (by decide)
  · by_cases h3 : p = 3
    · subst h3
      have hb : b = leafBufB := by simpa [loadFn0] using hp.symm
      subst hb
      have ht : isLeafPage leafBufB = true := by decide
      rw [ht] at hleaf
      exact absurd hleaf (by decide)
    · simp [loadFn0, h2, h3] at hp

/-! ## FreeList FIFO (claim C9) -/

theorem getD_set_self_int (l : List Int) (i : Nat) (a : Int) (h : i < l.length) :
    (l.set i a).getD i 0 = a := by
  simp [List.getD_eq_getElem?_getD, List.getElem?_set_self h]

theorem getD_set_ne_int (l : List Int) (i j : Nat) (a : Int) (h : i ≠ j) :
    (l.set i a).getD j 0 = l.getD j 0 := by
  simp [List.getD_eq_getElem?_getD, List.getElem?_set_ne h]

theorem mod_two_cap (x cap : Nat) (h : x < 2 * cap) :
    x % cap = if x < cap then x else x - cap := by
  split
  · exact Nat.mod_eq_of_lt (by assumption)
  · have hle : cap ≤ x := by omega
    have h3 : x % cap = (x - cap) % cap := by
      conv_lhs => rw [← Nat.sub_add_cancel hle]
      rw [Nat.add_mod_right]
    rw [h3, Nat.mod_eq_of_lt (by omega)]

theorem newFreeList_WF (cap : Nat) : (NewFreeList cap).WF := by
  refine ⟨by simp [NewFreeList], by simp [NewFreeList], ?_⟩
  intro hpos
  simp [NewFreeList] at hpos ⊢
  omega

theorem newFreeList_toQueue (cap : Nat) : (NewFreeList cap).toQueue = [] := by
  simp [NewFreeList, FreeList.toQueue]

theorem toQueue_length (f : FreeList) : f.toQueue.length = f.size := by
  simp [FreeList.toQueue]

theorem dequeue_sim (f : FreeList) (hwf : f.WF) :
    ((f.Dequeue).2.WF) ∧ ((f.Dequeue).2.toQueue = (mDequeue f.toQueue).2) ∧
      ((f.Dequeue).1 = (mDequeue f.toQueue).1) ∧ ((f.Dequeue).2.buf.length = f.buf.length) := by
  obtain ⟨hsz, hzero, hpos⟩ := hwf
  by_cases h0 : f.size = 0
  · have hq : f.toQueue = [] := by
      simp [FreeList.toQueue, h0]
    rw [FreeList.Dequeue, if_pos h0, hq]
    exact ⟨⟨hsz, hzero, hpos⟩, rfl, rfl, rfl⟩
  · have hcap : 0 < f.buf.length := by
      rcases Nat.eq_zero_or_pos f.buf.length with hc | hc
      · exact absurd ((hzero hc).1) h0
      · exact hc
    obtain ⟨hfr, hbk⟩ := hpos hcap
    obtain ⟨n, hn⟩ : ∃ n, f.size = n + 1 := ⟨f.size - 1, by omega⟩
    have hq : f.toQueue = f.buf.getD f.front 0 ::
        (List.range n).map (fun i => f.buf.getD ((f.front + 1 + i) % f.buf.length) 0) := by
      rw [FreeList.toQueue, hn, List.range_succ_eq_map, List.map_cons, List.map_map]
      have hfront0 : (f.front + 0) % f.buf.length = f.front := by
        rw [Nat.add_zero, Nat.mod_eq_of_lt hfr]
      rw [hfront0]
      refine congrArg (List.cons _) (List.map_congr_left ?_)
      intro i _
      simp only [Function.comp_apply]
      have e : f.front + Nat.succ i = f.front + 1 + i := by omega
      rw [e]
    rw [FreeList.Dequeue, if_neg h0, hq]
    refine ⟨⟨by simp; omega, ?_, ?_⟩, ?_, rfl, rfl⟩
    · intro hc
      simp only at hc
      exact absurd hc (by omega)
    · intro hc
      constructor
      · exact Nat.mod_lt _ hcap
      · simp only
        rw [Nat.mod_add_mod]
        rw [hbk, hn]
        have e : f.front + 1 + (f.size - 1) = f.front + (n + 1) := by omega
        rw [hn] at e
        have e2 : f.front + 1 + (n + 1 - 1) = f.front + (n + 1) := by omega
        rw [e2]
    · show FreeList.toQueue _ = _
      rw [FreeList.toQueue]
      simp only [hn]
      refine List.map_congr_left ?_
      intro i _
      have e : ((f.front + 1) % f.buf.length + i) % f.buf.length =
          (f.front + 1 + i) % f.buf.length := Nat.mod_add_mod _ _ _
      rw [e]

theorem enqueue_sim (f : FreeList) (id : Int) (hwf : f.WF) :
    ((f.Enqueue id).2.WF) ∧
      ((f.Enqueue id).2.toQueue = (mEnqueue f.buf.length f.toQueue id).2) ∧
      ((f.Enqueue id).1 = (mEnqueue f.buf.length f.toQueue id).1) ∧
      ((f.Enqueue id).2.buf.length = f.buf.length) := by
  obtain ⟨hsz, hzero, hpos⟩ := hwf
  by_cases hfull : f.size = f.buf.length
  · rw [FreeList.Enqueue, if_pos hfull, mEnqueue, if_pos (by rw [toQueue_length, hfull])]
    exact ⟨⟨hsz, hzero, hpos⟩, rfl, rfl, rfl⟩
  · have hlt : f.size < f.buf.length := by omega
    have hcap : 0 < f.buf.length := by omega
    obtain ⟨hfr, hbk⟩ := hpos hcap
    have hbklt : f.back < f.buf.length := by
      rw [hbk]
      exact Nat.mod_lt _ hcap
    rw [FreeList.Enqueue, if_neg hfull, mEnqueue,
      if_neg (by rw [toQueue_length]; exact hfull)]
    refine ⟨⟨by simp; omega, ?_, ?_⟩, ?_, rfl, by simp⟩
    · intro hc
      simp only [List.length_set] at hc
      exact absurd hc (by omega)
    · intro _
      refine ⟨by simp only [List.length_set]; exact hfr, ?_⟩
      simp only [List.length_set]
      rw [hbk, Nat.mod_add_mod]
      have e : f.front + f.size + 1 = f.front + (f.size + 1) := by omega
      rw [e]
    · show FreeList.toQueue _ = f.toQueue ++ [id]
      rw [FreeList.toQueue]
      simp only [List.length_set]
      rw [List.range_succ, List.map_append, List.map_cons, List.map_nil]
      congr 1
      · rw [FreeList.toQueue]
        refine List.map_congr_left ?_
        intro i hi
        have hi' : i < f.size := List.mem_range.mp hi
        have hne : f.back ≠ (f.front + i) % f.buf.length := by
          rw [hbk]
          have e1 := mod_two_cap (f.front + i) f.buf.length (by omega)
          have e2 := mod_two_cap (f.front + f.size) f.buf.length (by omega)
          rw [e1, e2]
          split <;> split <;> omega
        exact getD_set_ne_int f.buf f.back _ id hne
      · rw [← hbk]
        rw [getD_set_self_int f.buf f.back id hbklt]

theorem runFL_sim (ops : List FLOp) : ∀ (f : FreeList) (q : List Int),
    f.WF → f.toQueue = q → runFL ops f = runModel f.buf.length ops q := by
  induction ops with
  | nil => intro f q _ _; rfl
  | cons op ops ih =>
      intro f q hwf habs
      cases op with
      | enq id =>
          have hs := enqueue_sim f id hwf
          rw [runFL, runModel, ← habs]
          cases hE : f.Enqueue id with
          | mk r f' =>
              cases hM : mEnqueue f.buf.length f.toQueue id with
              | mk r' q' =>
                  rw [hE, hM] at hs
                  obtain ⟨hwf', habs', hout, hlen⟩ := hs
                  simp only at hout habs' hlen
                  subst hout
                  cases r with
                  | ok u =>
                      show FLOut.enqOk :: runFL ops f' =
                        FLOut.enqOk :: runModel f.buf.length ops q'
                      have hrec := ih f' q' hwf' habs'
                      rw [hlen] at hrec
                      rw [hrec]
                  | error e =>
                      show FLOut.enqErr e :: runFL ops f' =
                        FLOut.enqErr e :: runModel f.buf.length ops q'
                      have hrec := ih f' q' hwf' habs'
                      rw [hlen] at hrec
                      rw [hrec]
      | deq =>
          have hs := dequeue_sim f hwf
          rw [runFL, runModel, ← habs]
          cases hE : f.Dequeue with
          | mk r f' =>
              cases hM : mDequeue f.toQueue with
              | mk r' q' =>
                  rw [hE, hM] at hs
                  obtain ⟨hwf', habs', hout, hlen⟩ := hs
                  simp only at hout habs' hlen
                  subst hout
                  cases r with
                  | ok v =>
                      show FLOut.deqOk v :: runFL ops f' =
                        FLOut.deqOk v :: runModel f.buf.length ops q'
                      have hrec := ih f' q' hwf' habs'
                      rw [hlen] at hrec
                      rw [hrec]
                  | error e =>
                      show FLOut.deqErr e :: runFL ops f' =
                        FLOut.deqErr e :: runModel f.buf.length ops q'
                      have hrec := ih f' q' hwf' habs'
                      rw [hlen] at hrec
                      rw [hrec]

/-- C9: the FreeList is a strict FIFO queue — any trace of Enqueue/Dequeue
calls against the circular buffer produces exactly the outcomes of the ideal
capacity-bounded FIFO queue (so successive Dequeues return previously
Enqueued values in order, modulo intervening Dequeues); Enqueue at capacity
fails with `Full` and leaves the state unchanged; Dequeue on an empty
FreeList fails with `Empty` (and leaves the state unchanged). -/
theorem c9_freelist_fifo :
    (∀ (cap : Nat) (ops : List FLOp), runFL ops (NewFreeList cap) = runModel cap ops []) ∧
      (∀ (f : FreeList) (id : Int), f.size = f.buf.length →
        f.Enqueue id = (.error .full, f)) ∧
      (∀ f : FreeList, f.size = 0 → f.Dequeue = (.error .empty, f)) := by
  refine ⟨?_, ?_, ?_⟩
  · intro cap ops
    have h := runFL_sim ops (NewFreeList cap) [] (newFreeList_WF cap) (newFreeList_toQueue cap)
    have hlen : (NewFreeList cap).buf.length = cap := by
      simp [NewFreeList]
    rw [hlen] at h
    exact h
  · intro f id hfull
    rw [FreeList.Enqueue, if_pos hfull]
  · intro f hempty
    rw [FreeList.Dequeue, if_pos hempty]

/-- Witness for C9: a concrete trace, a full Enqueue, an empty Dequeue. -/
theorem c9_freelist_fifo_witness :
    runFL [.enq 5, .enq 7, .deq, .deq, .deq] (NewFreeList 2) =
        runModel 2 [.enq 5, .enq 7, .deq, .deq, .deq] [] ∧
      (NewFreeList 0).Enqueue 3 = (.error .full, NewFreeList 0) ∧
      (NewFreeList 2).Dequeue = (.error .empty, NewFreeList 2) :=
  ⟨c9_freelist_fifo.1 2 [.enq 5, .enq 7, .deq, .deq, .deq],
   c9_freelist_fifo.2.1 (NewFreeList 0) 3 rfl,
   c9_freelist_fifo.2.2 (NewFreeList 2) rfl⟩

/-! ## Concrete PageStore traces (claims C1, C3, C4, C5, C7, C8) -/

/-- C3: starting from a freshly initialized store, 10 successive Allocates
return PageIDs 1..10 in order and size becomes 11; Free of IDs 1..5 leaves
size at 11; the next 5 Allocates return 5,4,3,2,1 (most-recently-freed
first); an 11th Allocate returns 11 and size becomes 12. -/
theorem c3_alloc_free_lifo :
    c3Trace = some ([1, 2, 3, 4, 5, 6, 7, 8, 9, 10], 11, 11, [5, 4, 3, 2, 1], 11, 12) := by
  rfl

/-- C1 fails on the code: `Load` returns `&s.cache[pageID]`, not the buffer
in the newly obtained cache slot. On a fresh capacity-3 store, `Load 2` is
populated into slot 1 (the mapping records 2 ↦ 1), yet the call returns the
buffer at index 2 — a free slot still holding the zero page with ID 0. -/
theorem c1_load_returns_buffer_indexed_by_pageID :
    (store3.Load 2).1 = .ok 2 ∧
      List.lookup 2 (store3.Load 2).2.lookup = some 1 ∧
      ((store3.Load 2).2.cache.getD 2 defaultPage).id = 0 ∧
      ((store3.Load 2).2.cache.getD 1 defaultPage).id = 2 :=
  ⟨rfl, rfl, rfl, rfl⟩

/-- C4 fails on the code: `nextFreeCacheSlot` compares the Dequeue error
against `ErrFreeListFull`, which `Dequeue` never returns, so `Load` never
fails with `CacheFull`. On a capacity-2 store with the only free slot
consumed by `Load 1`, `Load 2` proceeds with slot 0 (the error value of the
empty Dequeue), clobbers the header slot's registration and panics indexing
`s.cache[2]` — it does not return `ErrPageCacheFull`, and it does populate
cache state. -/
theorem c4_load_full_cache_no_cachefull :
    ((store2.Load 1).2.Load 2).1 = .error .panicked ∧
      ((store2.Load 1).2.Load 2).1 ≠ .error .pageCacheFull ∧
      List.lookup 2 ((store2.Load 1).2.Load 2).2.lookup = some 0 ∧
      (((store2.Load 1).2.Load 2).2.cache.getD 0 defaultPage).id = 2 := by
  refine ⟨rfl, ?_, rfl, rfl⟩
  intro h
  rw [show ((store2.Load 1).2.Load 2).1 = Except.error StoreErr.panicked from rfl] at h
  exact StoreErr.noConfusion (Except.error.inj h)

/-- C5 fails on the code: `Free` ends with `s.Write(free.ID)` — it writes the
freed page a second time and never persists the header page. After
Allocate + Free 1 the in-memory header's free-list pointer is 4096, but the
on-disk header page still carries pointer 0 (page 1 itself was written). -/
theorem c5_free_never_persists_header :
    c5Trace.1 = none ∧
      c5Trace.2.header.freeList = 4096 ∧
      getU32 ((List.lookup 0 c5Trace.2.file.pages).getD (List.replicate PageSize 0)) 4 = 0 ∧
      (List.lookup 1 c5Trace.2.file.pages).isSome = true :=
  ⟨rfl, rfl, rfl, rfl⟩

/-- C7 fails on the code: a sequence of entirely successful operations
removes PageID 0 from the cache mapping (`Release 0` is not rejected) and
ends with cache slot 0 holding page 2's contents (a `Load` that finds the
cache free list empty reuses slot 0 because of the Full/Empty error mixup).
After the trace, slot 0 records page ID 2 and its first four bytes decode to
0 — the magic number is gone. -/
theorem c7_header_slot_not_permanent :
    (store3.Release 0).1 = none ∧
      ((store3.Release 0).2.Load 1).1 = .ok 1 ∧
      (((store3.Release 0).2.Load 1).2.Load 2).1 = .ok 2 ∧
      ((((store3.Release 0).2.Load 1).2.Load 2).2.Write 2).1 = none ∧
      (((((store3.Release 0).2.Load 1).2.Load 2).2.Write 2).2.Release 2).1 = none ∧
      ((((((store3.Release 0).2.Load 1).2.Load 2).2.Write 2).2.Release 2).2.Load 2).1 = .ok 2 ∧
      List.lookup 0 c7Trace.lookup = none ∧
      (c7Trace.cache.getD 0 defaultPage).id = 2 ∧
      getU32 (c7Trace.cache.getD 0 defaultPage).buf 0 = 0 :=
  ⟨rfl, rfl, rfl, rfl, rfl, rfl, rfl, rfl, rfl⟩

/-- Counterexample to C8 as stated: a `Load` that fails with
`PageNotFullyRead` does NOT leave the PageID-to-slot mapping and the cache
free list unchanged. On a fresh capacity-3 store, a short read while loading
page 2 returns the error, yet the mapping has gained 2 ↦ 1 and the cache
free list has lost a slot. -/
theorem c8_failing_load_mutates_cache_state :
    (store3.LoadWith (.short [7]) 2).1 = .error .pageNotFullyRead ∧
      List.lookup 2 store3.lookup = none ∧
      List.lookup 2 (store3.LoadWith (.short [7]) 2).2.lookup = some 1 ∧
      store3.freeList.size = 2 ∧
      (store3.LoadWith (.short [7]) 2).2.freeList.size = 1 :=
  ⟨rfl, rfl, rfl, rfl, rfl⟩

/-! ## State-effect lemmas for PageStore operations -/

theorem lookup_aset_self {α : Type} (l : List (Nat × α)) (k : Nat) (v : α) :
    List.lookup k (aset l k v) = some v := by
  induction l with
  | nil => simp [aset, List.lookup]
  | cons kv rest ih =>
      rcases kv with ⟨k', v'⟩
      rw [aset]
      by_cases h : k' = k
      · rw [if_pos h]
        simp [List.lookup]
      · rw [if_neg h]
        rw [List.lookup]
        have hbeq : (k == k') = false := by
          simp
          exact fun hh => h hh.symm
        rw [hbeq]
        exact ih

theorem dequeue_never_full (f : FreeList) :
    (match (f.Dequeue).1 with
     | Except.error FLErr.full => true
     | _ => false) = false := by
  rw [FreeList.Dequeue]
  by_cases h : f.size = 0
  · rw [if_pos h]
  · rw [if_neg h]

theorem loadPageWith_lookup (o : ReadOutcome) (s : StoreState) (p c : Nat) :
    (loadPageWith o s p c).2.lookup = aset s.lookup p c := by
  cases o <;> rfl

theorem loadPageWith_freeList (o : ReadOutcome) (s : StoreState) (p c : Nat) :
    (loadPageWith o s p c).2.freeList = s.freeList := by
  cases o <;> rfl

theorem loadPageWith_file (o : ReadOutcome) (s : StoreState) (p c : Nat) :
    (loadPageWith o s p c).2.file = s.file := by
  cases o <;> rfl

theorem loadPageWith_header (o : ReadOutcome) (s : StoreState) (p c : Nat) :
    (loadPageWith o s p c).2.header = s.header := by
  cases o <;> rfl

theorem write_lookup (s : StoreState) (p : Nat) : (s.Write p).2.lookup = s.lookup := by
  rw [StoreState.Write]
  cases List.lookup p s.lookup <;> rfl

theorem write_freeList (s : StoreState) (p : Nat) : (s.Write p).2.freeList = s.freeList := by
  rw [StoreState.Write]
  cases List.lookup p s.lookup <;> rfl

theorem write_not_loaded (s : StoreState) (p : Nat) (h : List.lookup p s.lookup = none) :
    s.Write p = (some .pageNotLoaded, s) := by
  rw [StoreState.Write, h]

theorem release_not_loaded (s : StoreState) (p : Nat) (h : List.lookup p s.lookup = none) :
    s.Release p = (some .pageNotLoaded, s) := by
  rw [StoreState.Release, h]

theorem load_resident (s : StoreState) (p c : Nat) (h : List.lookup p s.lookup = some c) :
    s.Load p = (.ok c, s) := by
  rw [StoreState.Load, StoreState.LoadWith, h]

theorem load_result_snd (o : ReadOutcome) (p cid : Nat) (s₁ : StoreState) :
    ((match loadPageWith o s₁ p cid with
      | (some e, s₂) => ((Except.error e : Except StoreErr Nat), s₂)
      | (none, s₂) =>
          if p < s₂.cache.length then (.ok p, s₂) else (.error .panicked, s₂)).2) =
      (loadPageWith o s₁ p cid).2 := by
  rcases hlp : loadPageWith o s₁ p cid with ⟨oe, s₂⟩
  cases oe with
  | none =>
      dsimp only
      split <;> rfl
  | some e => rfl

/-- C8 amended: a `Load` that fails with `PageNotFullyRead` (short read) or
with a read I/O error has already consumed the dequeued cache slot and
registered the `PageID → slot` mapping before the failure is detected — the
cache slot buffer holds whatever partial read completed — while the on-disk
state and decoded header are untouched; failing `Write` and `Release` on a
non-resident page leave the entire state unchanged. -/
theorem c8_failing_ops_effects (s : StoreState) (p : Nat) (bs : List Nat)
    (hshort : bs.length ≠ PageSize)
    (hnr : List.lookup p s.lookup = none)
    (hne : s.freeList.size ≠ 0) :
    ((s.LoadWith (.short bs) p).1 = .error .pageNotFullyRead ∧
      (s.LoadWith (.short bs) p).2.lookup =
        aset s.lookup p ((s.freeList.buf.getD s.freeList.front 0).toNat) ∧
      (s.LoadWith (.short bs) p).2.freeList = (s.freeList.Dequeue).2 ∧
      (s.LoadWith (.short bs) p).2.file = s.file ∧
      (s.LoadWith (.short bs) p).2.header = s.header) ∧
      ((s.LoadWith .ioErr p).1 = .error .ioError ∧
        (s.LoadWith .ioErr p).2.file = s.file ∧
        (s.LoadWith .ioErr p).2.lookup =
          aset s.lookup p ((s.freeList.buf.getD s.freeList.front 0).toNat)) ∧
      (∀ q, List.lookup q s.lookup = none →
        s.Write q = (some .pageNotLoaded, s) ∧ s.Release q = (some .pageNotLoaded, s)) := by
  have hdq : s.freeList.Dequeue =
      (Except.ok (s.freeList.buf.getD s.freeList.front 0),
        { s.freeList with front := (s.freeList.front + 1) % s.freeList.buf.length,
                          size := s.freeList.size - 1 }) := by
    rw [FreeList.Dequeue, if_neg hne]
  refine ⟨?_, ?_, fun q hq => ⟨write_not_loaded s q hq, release_not_loaded s q hq⟩⟩
  · simp only [StoreState.LoadWith, hnr, hdq, loadPageWith, if_neg hshort]
    exact ⟨rfl, rfl, rfl, rfl, rfl⟩
  · simp only [StoreState.LoadWith, hnr, hdq, loadPageWith]
    exact ⟨rfl, rfl, rfl⟩

/-- Witness for the amended C8 at a concrete store and short read. -/
theorem c8_failing_ops_effects_witness :
    ((store3.LoadWith (.short [7]) 2).1 = .error .pageNotFullyRead ∧
      (store3.LoadWith (.short [7]) 2).2.lookup =
        aset store3.lookup 2 ((store3.freeList.buf.getD store3.freeList.front 0).toNat) ∧
      (store3.LoadWith (.short [7]) 2).2.freeList = (store3.freeList.Dequeue).2 ∧
      (store3.LoadWith (.short [7]) 2).2.file = store3.file ∧
      (store3.LoadWith (.short [7]) 2).2.header = store3.header) ∧
      ((store3.LoadWith .ioErr 2).1 = .error .ioError ∧
        (store3.LoadWith .ioErr 2).2.file = store3.file ∧
        (store3.LoadWith .ioErr 2).2.lookup =
          aset store3.lookup 2 ((store3.freeList.buf.getD store3.freeList.front 0).toNat)) ∧
      (∀ q, List.lookup q store3.lookup = none →
        store3.Write q = (some .pageNotLoaded, store3) ∧
          store3.Release q = (some .pageNotLoaded, store3)) :=
  c8_failing_ops_effects store3 2 [7] (by decide) (by rfl) (by decide)

theorem headerToBuffer_lookup (s : StoreState) : (headerToBuffer s).lookup = s.lookup := rfl

theorem headerToBuffer_freeList (s : StoreState) :
    (headerToBuffer s).freeList = s.freeList := rfl

theorem snd_eq_of_eq_pair {α β : Type} {x : α × β} {a : α} {b : β} (h : x = (a, b)) :
    x.2 = b := by
  rw [h]

theorem load_miss_state (s : StoreState) (p : Nat) (h : List.lookup p s.lookup = none) :
    (s.Load p).2.lookup = aset s.lookup p
        (match (s.freeList.Dequeue).1 with
         | Except.ok id => id.toNat
         | Except.error _ => 0) ∧
      (s.Load p).2.freeList = (s.freeList.Dequeue).2 := by
  rw [StoreState.Load]
  simp only [StoreState.LoadWith, h, dequeue_never_full, Bool.false_eq_true, if_false,
    load_result_snd, loadPageWith_lookup, loadPageWith_freeList]
  constructor <;> trivial

/-- C10: after a successful `Free(p)`, page p remains resident — the
PageID-to-slot mapping still contains p, and no cache slot is returned to
the cache FreeList by `Free`: the resulting free list is the original one
when p was already resident, and the original minus the one dequeued slot
when p had to be loaded — so each Free of a previously non-resident page
consumes one cache slot until the caller explicitly Releases it. -/
theorem c10_free_keeps_page_resident (s : StoreState) (p : Nat) (s' : StoreState)
    (h : s.Free p = (none, s')) :
    (List.lookup p s'.lookup).isSome = true ∧
      s'.freeList = (if (List.lookup p s.lookup).isSome then s.freeList
        else (s.freeList.Dequeue).2) := by
  cases hlk : List.lookup p s.lookup with
  | some c =>
      have hL := load_resident s p c hlk
      simp only [StoreState.Free, hL] at h
      split at h
      · simp at h
      · next s₃ heq =>
          have hs := snd_eq_of_eq_pair h
          have h3 := snd_eq_of_eq_pair heq
          constructor
          · rw [← hs, write_lookup, headerToBuffer_lookup]
            show (List.lookup p s₃.lookup).isSome = true
            rw [← h3, write_lookup]
            show (List.lookup p s.lookup).isSome = true
            rw [hlk]
            rfl
          · rw [← hs, write_freeList, headerToBuffer_freeList]
            show s₃.freeList = _
            rw [← h3, write_freeList]
            rfl
  | none =>
      simp only [StoreState.Free] at h
      split at h
      · simp at h
      · next idx s₁ heq =>
          split at h
          · simp at h
          · next s₃ heq2 =>
              have hs := snd_eq_of_eq_pair h
              have h2 := snd_eq_of_eq_pair heq2
              have h1 := snd_eq_of_eq_pair heq
              constructor
              · rw [← hs, write_lookup, headerToBuffer_lookup]
                show (List.lookup p s₃.lookup).isSome = true
                rw [← h2, write_lookup]
                show (List.lookup p s₁.lookup).isSome = true
                rw [← h1, (load_miss_state s p hlk).1, lookup_aset_self]
                rfl
              · rw [← hs, write_freeList, headerToBuffer_freeList]
                show s₃.freeList = _
                rw [← h2, write_freeList]
                show s₁.freeList = _
                rw [← h1, (load_miss_state s p hlk).2]
                rfl

/-- Witness for C10: `Free 1` after allocating page 1 on the fresh store
succeeds, and the theorem applies. -/
theorem c10_free_keeps_page_resident_witness :
    (List.lookup 1 (storeAfterAlloc.Free 1).2.lookup).isSome = true ∧
      (storeAfterAlloc.Free 1).2.freeList =
        (if (List.lookup 1 storeAfterAlloc.lookup).isSome then storeAfterAlloc.freeList
          else (storeAfterAlloc.freeList.Dequeue).2) :=
  c10_free_keeps_page_resident storeAfterAlloc 1 (storeAfterAlloc.Free 1).2 (by rfl)
